import Mathlib

/-!
Verification development for the grazing-report ETL pipeline
(`src/grazing_etl.py`).

The pipeline extracts a table from each inbound PDF (external OCR),
normalizes it with polars (`transform_data`), concatenates the per-file
frames, builds one upsert statement per row with psycopg2 SQL composition
(`build_load_query`), executes them (`load_data_into_pg_warehouse`), and
finally renames the intermediate parquet snapshot into a dated archive
name (`__main__`).

Shallow embedding conventions:
* a polars cell value is `Val` (string, parsed date, or null);
* a frame row is an association list of (column name, value) pairs,
  mirroring a polars frame whose columns are named and ordered;
* fallible polars operations (column selection of a missing name,
  strict date parsing, width-mismatched column renaming) return
  `Option`, `none` standing for the raised Python exception that the
  enclosing bare `except` of `transform_data` converts into a `None`
  return value;
* psycopg2 `sql.Composed` objects are lists of `Frag`: `sql.Identifier`
  becomes `Frag.ident` (identifier-quoted), `sql.Literal` becomes
  `Frag.lit` (literal-escaped), and `sql.SQL` becomes `Frag.raw`
  (spliced verbatim).
-/

namespace GrazingEtl

/-- A polars cell value: a string, an already-parsed calendar date
(year, month, day), or null. OCR output cells are strings or nulls;
dates appear only after the `str.to_date` step of `transform_data`. -/
inductive Val where
  | str (s : String)
  | vdate (y m d : Nat)
  | null
deriving DecidableEq, Repr

/-- The OCR engine's output for one document: an ordered grid of cells. -/
abbrev RawTable := List (List Val)

/-- One row of a named polars frame: column name / value pairs in the
frame's column order. -/
abbrev Row := List (String × Val)

/-- First-match association-list lookup (models both polars column
access by name and Python dict lookup). -/
def alookup {κ β : Type} [DecidableEq κ] (k : κ) : List (κ × β) → Option β
  | [] => none
  | (k2, v) :: rest => if k2 = k then some v else alookup k rest

/-- Option-valued map over a list, failing if any element fails
(the Option instance of `mapM`, written out for easy induction). -/
def omap {α β : Type} (f : α → Option β) : List α → Option (List β)
  | [] => some []
  | a :: l => (f a).bind fun b => (omap f l).map fun bs => b :: bs

/-- Cell access `data[i, j]` on a polars frame: out-of-bounds raises
(modelled as `none`); a null cell is the in-bounds value `Val.null`. -/
def cellAt (t : RawTable) (i j : Nat) : Option Val :=
  (List.get? t i).bind (fun r => List.get? r j)

/-- The slice `data[3:-1]` of `transform_data` line 64: drop the first
three rows and the final row. -/
def sliceBody {α : Type} (t : List α) : List α :=
  (t.drop 3).dropLast

/-- The configuration loaded from `yaml/etl_variables.yaml`, with the
fields `grazing_etl.py` reads. -/
structure EtlYaml where
  db_schema : List String
  schema_name : String
  table_name : String
  prim_key : String
  update_col : String
  db_name : String
  transformed_parquet : String
  areas_to_replace : List (String × String)
deriving DecidableEq, Repr

/-- Exact-match dictionary substitution on a string, as polars
`Expr.replace` applies the configured alias dict to one value:
mapped values are substituted, unmapped values pass through. -/
def replaceStr (m : List (String × String)) (x : String) : String :=
  (alookup x m).getD x

/-- Lift of `replaceStr` to cell values: polars `replace` with a
string-keyed dict only rewrites string values; nulls pass through. -/
def replaceVal (m : List (String × String)) : Val → Val
  | Val.str s => Val.str (replaceStr m s)
  | v => v

/-- English month names recognized by the chrono format code used in
the string `%B %d, %Y` of `transform_data` line 77. -/
def monthNames : List String :=
  ["January", "February", "March", "April", "May", "June", "July",
   "August", "September", "October", "November", "December"]

/-- Day count of a month, with the Gregorian leap-year rule, as the
date builder behind `str.to_date` validates parsed components. -/
def daysInMonth (y m : Nat) : Nat :=
  if m = 2 then
    if y % 4 = 0 ∧ (y % 100 ≠ 0 ∨ y % 400 = 0) then 29 else 28
  else if m = 4 ∨ m = 6 ∨ m = 9 ∨ m = 11 then 30
  else 31

/-- Decimal digits to a natural number. -/
def digitsToNat (cs : List Char) : Nat :=
  cs.foldl (fun a c => a * 10 + (c.toNat - 48)) 0

/-- Strip an expected character prefix, returning the remainder. -/
def stripPrefixChars : List Char → List Char → Option (List Char)
  | [], cs => some cs
  | _ :: _, [] => none
  | p :: ps, c :: cs => if c = p then stripPrefixChars ps cs else none

/-- Match a leading month name followed by a space; return the month
number (1..12) and the remaining characters. -/
def findMonth (s : String) : Option (Nat × List Char) :=
  (List.range 12).findSome? (fun i =>
    match List.get? monthNames i with
    | some m =>
      match stripPrefixChars (m.toList ++ [' ']) s.toList with
      | some rest => some (i + 1, rest)
      | none => none
    | none => none)

/-- Modelled from the spec: the parse of reporting-date text in the
fixed month-name/day/year format performed by polars
`str.to_date(format of percent-B percent-d comma percent-Y)` on
line 77 (the parser itself lives in the polars/chrono libraries,
outside this repository). Returns (year, month, day), or `none` when
the text does not match the format or names an invalid calendar day. -/
def parseDateMBDY (s : String) : Option (Nat × Nat × Nat) :=
  match findMonth s with
  | none => none
  | some (mo, cs) =>
    let dayCs := cs.takeWhile Char.isDigit
    let rest2 := cs.dropWhile Char.isDigit
    if dayCs.length = 0 ∨ 2 < dayCs.length then none
    else
      match rest2 with
      | ',' :: ' ' :: ycs =>
        if ycs.length = 4 ∧ ycs.all Char.isDigit then
          let d := digitsToNat dayCs
          let y := digitsToNat ycs
          if 1 ≤ d ∧ d ≤ daysInMonth y mo then some (y, mo, d) else none
        else none
      | _ => none

/-- Strict `str.to_date` applied to one cell: a null stays null (polars
only parses non-null values), a string must parse or the whole column
cast raises (modelled as `none`). -/
def toDateVal : Val → Option Val
  | Val.null => some Val.null
  | Val.str s =>
    match parseDateMBDY s with
    | some (y, mo, d) => some (Val.vdate y mo d)
    | none => none
  | Val.vdate y mo d => some (Val.vdate y mo d)

/-- The column renaming `data.columns = ["area", "number_of_animal_units",
"comments"]` of line 67: the frame must be exactly three columns wide,
otherwise polars raises (modelled per body row; the OCR grid is uniform). -/
def renameCols (body : List (List Val)) : Option (List Row) :=
  omap (fun r =>
    match r with
    | [a, b, c] =>
      some [("area", a), ("number_of_animal_units", b), ("comments", c)]
    | _ => none) body

/-- Column projection `data[etl_yaml["db_schema"]]` of line 72 applied
to one row: select the named columns in the configured order; a name
absent from the frame raises (modelled as `none`). -/
def projectRow (cols : List String) (r : Row) : Option Row :=
  omap (fun c => (alookup c r).map (fun v => (c, v))) cols

/-- Does the row keep its place under `drop_nulls(subset=cols)`:
every subset column value is non-null. -/
def keepRow (cols : List String) (r : Row) : Bool :=
  cols.all (fun c => decide (alookup c r ≠ some Val.null))

/-- Does the row carry every one of the named columns (polars raises
`ColumnNotFound` when a `drop_nulls` subset column is missing). -/
def hasCols (cols : List String) (r : Row) : Bool :=
  cols.all (fun c => (alookup c r).isSome)

/-- The `drop_nulls(subset=["area", "number_of_animal_units"])` of
lines 72-74: fail if a subset column is missing, otherwise keep the
rows whose subset values are all non-null. -/
def dropNullsSubset (cols : List String) (rows : List Row) : Option (List Row) :=
  if rows.all (hasCols cols) then some (rows.filter (keepRow cols)) else none

/-- Per-pair action of a column rewrite: pairs of the named column go
through the cell function, other pairs pass unchanged. -/
def colUpd (c : String) (f : Val → Option Val) (p : String × Val) :
    Option (String × Val) :=
  if p.1 = c then (f p.2).map (fun v => (c, v)) else some p

/-- Rewrite the value of one named column of a row through a fallible
cell function; the column must be present (a missing name raises in
`polars.col`), and a cell-level failure fails the row. -/
def updateColM (c : String) (f : Val → Option Val) (r : Row) : Option Row :=
  if (alookup c r).isSome then omap (colUpd c f) r else none

/-- The body of `transform_data` (lines 58-80): read the grazer cell
(0,1) and the reporting-date cell (1,1), slice off metadata/separator/
total rows, rename the three body columns, broadcast grazer and
reporting date as constant columns, project to the configured
`db_schema` order, drop rows with null area or animal-unit count,
apply the area alias dict, and strictly parse the reporting date.
Any step's exception is caught by the enclosing bare `except`, which
logs and returns `None`: modelled as the overall `none`. -/
def transform_data (t : RawTable) (cfg : EtlYaml) : Option (List Row) :=
  match cellAt t 0 1, cellAt t 1 1 with
  | some grazer, some rdate =>
    match renameCols (sliceBody t) with
    | none => none
    | some named =>
      let widened := named.map
        (fun r => r ++ [("grazer", grazer), ("reporting_date", rdate)])
      match omap (projectRow cfg.db_schema) widened with
      | none => none
      | some projected =>
        match dropNullsSubset ["area", "number_of_animal_units"] projected with
        | none => none
        | some filtered =>
          match omap (updateColM "area"
              (fun v => some (replaceVal cfg.areas_to_replace v))) filtered with
          | none => none
          | some replaced =>
            omap (updateColM "reporting_date" toDateVal) replaced
  | _, _ => none

/-- One part of a psycopg2 `sql.Composed` object: `sql.Identifier`
(rendered with identifier quoting), `sql.Literal` (rendered with
literal escaping), or `sql.SQL` (rendered verbatim, unescaped). -/
inductive Frag where
  | ident (s : String)
  | lit (v : Val)
  | raw (s : String)
deriving DecidableEq, Repr

/-- Interleave a separator between list elements, as
`sql.SQL(sep).join(parts)` flattens into a `Composed`. -/
def sepBy {α : Type} (sep : α) : List α → List α
  | [] => []
  | [a] => [a]
  | a :: b :: rest => a :: sep :: sepBy sep (b :: rest)

/-- The `col_names` composition of `build_load_query` line 176:
each configured column as a quoted identifier, comma-joined. -/
def colListFrags (cfg : EtlYaml) : List Frag :=
  sepBy (Frag.raw ", ") (cfg.db_schema.map Frag.ident)

/-- The `values` composition of `build_load_query` line 177:
each cell of the row as an escaped literal, comma-joined. -/
def valuesFrags (vals : List Val) : List Frag :=
  sepBy (Frag.raw " , ") (vals.map Frag.lit)

/-- The statement composed by `build_load_query` (lines 176-190),
flattened to its fragments: the fixed template text, identifier-quoted
schema/table/column/update-column names, literal-escaped row values —
and the configured `prim_key` string spliced through `sql.SQL`,
i.e. as raw SQL. -/
def build_load_query (cfg : EtlYaml) (vals : List Val) : List Frag :=
  [Frag.raw "\n        INSERT INTO ", Frag.ident cfg.schema_name,
   Frag.raw ".", Frag.ident cfg.table_name, Frag.raw " ("]
  ++ colListFrags cfg
  ++ [Frag.raw ") VALUES ("]
  ++ valuesFrags vals
  ++ [Frag.raw ")\n        ON CONFLICT (", Frag.raw cfg.prim_key,
      Frag.raw ") DO UPDATE SET ", Frag.ident cfg.update_col,
      Frag.raw " = Excluded.", Frag.ident cfg.update_col,
      Frag.raw ", edited_on = current_timestamp;\n        "]

/-- The fixed raw template text of `build_load_query`: every `sql.SQL`
fragment that comes from the statement template itself rather than
from configuration or data. -/
def templateRaws : List String :=
  ["\n        INSERT INTO ", ".", " (", ", ", ") VALUES (", " , ",
   ")\n        ON CONFLICT (", ") DO UPDATE SET ", " = Excluded.",
   ", edited_on = current_timestamp;\n        "]

/-- The claim of safe composition: every raw (unescaped) fragment of
the built statement is fixed template text, so no configuration- or
data-derived string is spliced in as raw SQL. -/
def rawSpliceFree (cfg : EtlYaml) (vals : List Val) : Bool :=
  (build_load_query cfg vals).all (fun f =>
    match f with
    | Frag.raw s => templateRaws.contains s
    | _ => true)

/-- The identifier names of a fragment list, in order. -/
def fragIdents (l : List Frag) : List String :=
  l.filterMap (fun f => match f with | Frag.ident s => some s | _ => none)

/-- The literal values of a fragment list, in order. -/
def fragLits (l : List Frag) : List Val :=
  l.filterMap (fun f => match f with | Frag.lit v => some v | _ => none)

/-- Where a fragment of the built statement may come from: raw
fragments are template text or the configured primary-key string,
identifiers are the configured schema/table/update-column/schema
columns, literals are row values. -/
def fragProvenance (cfg : EtlYaml) (vals : List Val) : Frag → Prop
  | Frag.raw s => s ∈ templateRaws ∨ s = cfg.prim_key
  | Frag.ident s =>
    s = cfg.schema_name ∨ s = cfg.table_name ∨ s = cfg.update_col ∨
      s ∈ cfg.db_schema
  | Frag.lit v => v ∈ vals

/-- The kind of Python exception distinguished by the `except` clauses
of `grazing_etl.py`: `psycopg2.OperationalError` (the only kind the
loader's handlers catch), a database `ProgrammingError` (e.g.
`UndefinedTable` from probing a missing table), `AttributeError`
(method call on the `None` returned by a failed
`get_pg_connection`), and `TypeError` (`polars.concat` applied to a
list containing `None`). -/
inductive ExcKind where
  | operationalError
  | programmingError
  | attributeError
  | typeError
deriving DecidableEq, Repr

/-- The control flow of `check_table_exists` (lines 107-132) given the
outcome of executing the 1-row probe select: success and
`OperationalError` are logged and absorbed; any other exception
escapes the `except pg.OperationalError` handler and propagates. -/
def check_table_exists (probe : Except ExcKind Unit) : Except ExcKind Unit :=
  match probe with
  | Except.ok _ => Except.ok ()
  | Except.error ExcKind.operationalError => Except.ok ()
  | Except.error e => Except.error e

/-- The control flow of `load_data_into_pg_warehouse` (lines 135-163),
parameterized by the environment outcomes: whether the connection
succeeded (a failed `get_pg_connection` returns `None`, and the
subsequent `con.cursor()` raises `AttributeError` outside any
handler), and the probe outcome (handled by `check_table_exists`,
which is called before the function's `try` block, so an exception it
re-raises propagates). On reaching the row loop the function builds
and executes one upsert statement per row; the executed statements
are returned. -/
def load_data_into_pg_warehouse (connOk : Bool) (probe : Except ExcKind Unit)
    (data : List Row) (cfg : EtlYaml) : Except ExcKind (List (List Frag)) :=
  if connOk then
    match check_table_exists probe with
    | Except.error e => Except.error e
    | Except.ok _ =>
      Except.ok (data.map (fun r => build_load_query cfg (r.map Prod.snd)))
  else Except.error ExcKind.attributeError

/-- The `polars.concat(combined_data)` of line 209 applied to the list
of per-file `transform_data` results: any `None` entry (a file whose
extraction or normalization failed) makes `polars.concat` raise a
`TypeError`; otherwise the frames are concatenated in order. -/
def concatFrames (l : List (Option (List Row))) : Option (List Row) :=
  (omap id l).map List.flatten

/-- What a completed run performed: the upsert statements executed and
the file renames carried out afterwards. -/
structure RunResult where
  queries : List (List Frag)
  renames : List (String × String)
deriving DecidableEq, Repr

/-- Decidable equality of run outcomes, for concrete evaluation. -/
instance {ε α : Type} [DecidableEq ε] [DecidableEq α] :
    DecidableEq (Except ε α) := fun a b =>
  match a, b with
  | Except.ok x, Except.ok y =>
    if h : x = y then isTrue (by rw [h])
    else isFalse (by intro hh; cases hh; exact h rfl)
  | Except.error x, Except.error y =>
    if h : x = y then isTrue (by rw [h])
    else isFalse (by intro hh; cases hh; exact h rfl)
  | Except.ok _, Except.error _ => isFalse (by intro hh; cases hh)
  | Except.error _, Except.ok _ => isFalse (by intro hh; cases hh)

/-- The `__main__` flow of `grazing_etl.py` (lines 193-222),
parameterized by the inbound listing, the per-file extraction outcome
(`extract_data` returns `None` on any OCR/read exception), and the
database outcomes. An empty inbound directory exits early. Each file
is extracted and transformed; the per-file results are concatenated
(raising on any `None`), snapshotted, loaded, and then the single
`os.rename` of lines 217-221 moves the snapshot — and only the
snapshot — to the dated archive name. An uncaught exception anywhere
is the `Except.error` outcome. -/
def mainRun (files : List String) (extractf : String → Option RawTable)
    (connOk : Bool) (probe : Except ExcKind Unit) (cfg : EtlYaml)
    (dateStr : String) : Except ExcKind RunResult :=
  if files.isEmpty then Except.ok { queries := [], renames := [] }
  else
    let combined := files.map (fun f =>
      match extractf ("data_dump/" ++ f) with
      | none => none
      | some t => transform_data t cfg)
    match concatFrames combined with
    | none => Except.error ExcKind.typeError
    | some proc =>
      match load_data_into_pg_warehouse connOk probe proc cfg with
      | Except.error e => Except.error e
      | Except.ok qs =>
        Except.ok
          { queries := qs
            renames := [(cfg.transformed_parquet,
              "loaded_data/grazing_data_loaded_" ++ dateStr ++ ".parquet")] }

/-- The row the statement would insert: the configured columns paired
positionally with the row values. -/
def newRow (cfg : EtlYaml) (vals : List Val) : Row :=
  cfg.db_schema.zip vals

/-- Modelled from the spec: the primary-key comparison PostgreSQL makes
for `ON CONFLICT` (the database engine is outside this repository) —
two rows conflict when their values at the configured key column agree. -/
def upsertHit (cfg : EtlYaml) (nr r : Row) : Bool :=
  decide (alookup cfg.prim_key r = alookup cfg.prim_key nr)

/-- Set one column of a stored row to a value (the effect of a SQL
`UPDATE ... SET` assignment on that row). -/
def setCol (r : Row) (c : String) (v : Val) : Row :=
  if (alookup c r).isSome then
    r.map (fun p => if p.1 = c then (c, v) else p)
  else r ++ [(c, v)]

/-- The `DO UPDATE SET` list of the statement built by
`build_load_query`: set the configured update column to the excluded
(incoming) value and `edited_on` to the current timestamp. -/
def applyUpdate (cfg : EtlYaml) (nr : Row) (now : Val) (r : Row) : Row :=
  setCol (setCol r cfg.update_col ((alookup cfg.update_col nr).getD Val.null))
    "edited_on" now

/-- Modelled from the spec: PostgreSQL execution of the
`INSERT ... ON CONFLICT ... DO UPDATE` statement built by
`build_load_query` against a stored table (the database engine is
outside this repository): if some stored row conflicts on the primary
key, apply the update list to the conflicting rows; otherwise append
the incoming row. -/
def runUpsert (cfg : EtlYaml) (vals : List Val) (now : Val)
    (db : List Row) : List Row :=
  let nr := newRow cfg vals
  if db.any (upsertHit cfg nr) then
    db.map (fun r => if upsertHit cfg nr r then applyUpdate cfg nr now r else r)
  else db ++ [nr]

/-- A representative well-formed run configuration, used for concrete
evaluations. -/
def cfg0 : EtlYaml :=
  { db_schema := ["grazer", "area", "number_of_animal_units", "comments",
      "reporting_date"]
    schema_name := "public"
    table_name := "grazing_reports"
    prim_key := "grazer"
    update_col := "number_of_animal_units"
    db_name := "kwb_dw"
    transformed_parquet := "transformed/grazing.parquet"
    areas_to_replace := [("Main Canal", "MC-1")] }

/-- A representative OCR output table: two metadata rows, a header
row, two data rows, a blank separator row, and a total row. -/
def t0 : RawTable :=
  [ [Val.str "Grazer", Val.str "John Doe", Val.null],
    [Val.str "Reporting Date", Val.str "June 12, 2023", Val.null],
    [Val.str "Area", Val.str "Animal Units", Val.str "Comments"],
    [Val.str "Main Canal", Val.str "25", Val.null],
    [Val.str "Pond 3", Val.str "10", Val.str "moved"],
    [Val.null, Val.null, Val.null],
    [Val.str "Total", Val.str "35", Val.null] ]

/-- A configuration whose primary-key entry carries a SQL injection
payload, to probe the composition of `build_load_query`. -/
def cfgBad : EtlYaml :=
  { cfg0 with prim_key := "grazer); DROP TABLE grazing_reports; --" }

/-- A 4-row OCR table with an unparseable reporting date and no data
rows between the header and the total row. -/
def t4 : RawTable :=
  [ [Val.str "Grazer", Val.str "John Doe", Val.null],
    [Val.str "Reporting Date", Val.str "not a date", Val.null],
    [Val.str "Area", Val.str "Animal Units", Val.str "Comments"],
    [Val.str "Total", Val.str "0", Val.null] ]

/-- A table whose single data row has an empty-string area. -/
def t5 : RawTable :=
  [ [Val.str "Grazer", Val.str "Jane Roe", Val.null],
    [Val.str "Reporting Date", Val.str "June 12, 2023", Val.null],
    [Val.str "Area", Val.str "Animal Units", Val.str "Comments"],
    [Val.str "", Val.str "4", Val.null],
    [Val.str "Total", Val.str "4", Val.null] ]

/-- The canonical records `transform_data` produces from `t0`. -/
def recs0 : List Row :=
  [ [("grazer", Val.str "John Doe"), ("area", Val.str "MC-1"),
     ("number_of_animal_units", Val.str "25"), ("comments", Val.null),
     ("reporting_date", Val.vdate 2023 6 12)],
    [("grazer", Val.str "John Doe"), ("area", Val.str "Pond 3"),
     ("number_of_animal_units", Val.str "10"),
     ("comments", Val.str "moved"),
     ("reporting_date", Val.vdate 2023 6 12)] ]

/-- The single record `transform_data` produces from `t5`: its area
is the empty string. -/
def rec5 : Row :=
  [("grazer", Val.str "Jane Roe"), ("area", Val.str ""),
   ("number_of_animal_units", Val.str "4"), ("comments", Val.null),
   ("reporting_date", Val.vdate 2023 6 12)]

/-- An inbound directory where OCR succeeds only on `good.pdf`. -/
def extract0 : String → Option RawTable :=
  fun f => if f = "data_dump/good.pdf" then some t0 else none

/-- The run result of a successful single-file run over `t0`. -/
def res2 : RunResult :=
  match mainRun ["report1.pdf"] (fun _ => some t0) true (Except.ok ()) cfg0
      "2026-10-12" with
  | Except.ok r => r
  | Except.error _ => { queries := [], renames := [] }

/-! Helper lemmas about the list combinators of the embedding. -/

/-- A successful association lookup finds a pair of the list. -/
theorem alookup_mem {κ β : Type} [DecidableEq κ] {k : κ} {v : β} {l : List (κ × β)}
    (h : alookup k l = some v) : (k, v) ∈ l := by
  induction l with
  | nil => simp [alookup] at h
  | cons p rest ih =>
    obtain ⟨k2, v2⟩ := p
    by_cases hk : k2 = k
    · subst hk
      simp [alookup] at h
      simp [h]
    · simp [alookup, hk] at h
      exact List.mem_cons_of_mem _ (ih h)

/-- A key that is not among the pair keys looks up to nothing. -/
theorem alookup_eq_none {κ β : Type} [DecidableEq κ] {k : κ} {l : List (κ × β)}
    (h : k ∉ l.map Prod.fst) : alookup k l = none := by
  induction l with
  | nil => rfl
  | cons p rest ih =>
    obtain ⟨k2, v2⟩ := p
    simp only [List.map_cons, List.mem_cons] at h
    push_neg at h
    simp [alookup, Ne.symm h.1, ih h.2]

/-- Destructor for a successful `omap` on a cons cell. -/
theorem omap_cons_eq_some {α β : Type} {f : α → Option β} {a : α} {l : List α}
    {bs : List β} (h : omap f (a :: l) = some bs) :
    ∃ b bs2, f a = some b ∧ omap f l = some bs2 ∧ bs = b :: bs2 := by
  simp only [omap, Option.bind_eq_some, Option.map_eq_some'] at h
  obtain ⟨b, hb, bs2, hbs2, rfl⟩ := h
  exact ⟨b, bs2, hb, hbs2, rfl⟩

/-- Every element produced by a successful `omap` comes from an element
of the input list. -/
theorem omap_mem {α β : Type} {f : α → Option β} {l : List α} {bs : List β}
    (h : omap f l = some bs) {b : β} (hb : b ∈ bs) : ∃ a ∈ l, f a = some b := by
  induction l generalizing bs with
  | nil =>
    simp only [omap, Option.some.injEq] at h
    subst h
    simp at hb
  | cons a rest ih =>
    obtain ⟨b1, bs2, hb1, hbs2, rfl⟩ := omap_cons_eq_some h
    rcases List.mem_cons.mp hb with rfl | hb2
    · exact ⟨a, List.mem_cons_self a rest, hb1⟩
    · obtain ⟨a2, ha2, hfa2⟩ := ih hbs2 hb2
      exact ⟨a2, List.mem_cons_of_mem _ ha2, hfa2⟩

/-- An element mapped to failure makes the whole `omap` fail. -/
theorem omap_eq_none {α β : Type} {f : α → Option β} {l : List α} {a : α}
    (ha : a ∈ l) (hf : f a = none) : omap f l = none := by
  induction l with
  | nil => simp at ha
  | cons a2 rest ih =>
    rcases List.mem_cons.mp ha with rfl | ha2
    · simp [omap, hf]
    · cases hfa : f a2 <;> simp [omap, hfa, ih ha2]

/-- Membership in a separator-joined list: the element is the
separator or one of the joined parts. -/
theorem mem_sepBy {α : Type} {sep x : α} {l : List α} (h : x ∈ sepBy sep l) :
    x = sep ∨ x ∈ l := by
  induction l with
  | nil => simp [sepBy] at h
  | cons a rest ih =>
    cases rest with
    | nil =>
      simp [sepBy] at h
      simp [h]
    | cons b t =>
      simp only [sepBy, List.mem_cons] at h
      rcases h with rfl | rfl | h
      · right; exact List.mem_cons_self _ _
      · left; rfl
      · rcases ih h with rfl | h2
        · left; rfl
        · right; exact List.mem_cons_of_mem _ h2

/-! Stage lemmas: how each polars step of `transform_data` treats
column names and values. -/

/-- A successful projection yields a row whose column names are the
selected names, in order. -/
theorem projectRow_fst {cols : List String} {r pr : Row}
    (h : projectRow cols r = some pr) : pr.map Prod.fst = cols := by
  induction cols generalizing pr with
  | nil =>
    simp only [projectRow, omap, Option.some.injEq] at h
    subst h
    rfl
  | cons c cs ih =>
    obtain ⟨b, bs2, hb, hbs2, rfl⟩ := omap_cons_eq_some h
    simp only [Option.map_eq_some'] at hb
    obtain ⟨v, hv, rfl⟩ := hb
    simp [ih hbs2]

/-- A successful projection preserves the looked-up value of every
selected column. -/
theorem projectRow_alookup {cols : List String} {r pr : Row}
    (h : projectRow cols r = some pr) {c : String} (hc : c ∈ cols) :
    alookup c pr = alookup c r := by
  induction cols generalizing pr with
  | nil => simp at hc
  | cons c0 cs ih =>
    obtain ⟨b, bs2, hb, hbs2, rfl⟩ := omap_cons_eq_some h
    simp only [Option.map_eq_some'] at hb
    obtain ⟨v, hv, rfl⟩ := hb
    by_cases he : c0 = c
    · subst he
      simp [alookup, hv]
    · have hc2 : c ∈ cs := by
        rcases List.mem_cons.mp hc with rfl | h2
        · exact absurd rfl he
        · exact h2
      simp [alookup, he, ih hbs2 hc2]

/-- A column rewrite preserves the row's column names. -/
theorem colUpd_omap_fst {c : String} {f : Val → Option Val} {r r' : Row}
    (h : omap (colUpd c f) r = some r') : r'.map Prod.fst = r.map Prod.fst := by
  induction r generalizing r' with
  | nil =>
    simp only [omap, Option.some.injEq] at h
    subst h
    rfl
  | cons p rest ih =>
    obtain ⟨b, bs2, hb, hbs2, rfl⟩ := omap_cons_eq_some h
    by_cases hp : p.1 = c
    · simp only [colUpd] at hb
      rw [if_pos hp] at hb
      simp only [Option.map_eq_some'] at hb
      obtain ⟨v, hv, rfl⟩ := hb
      simp [hp, ih hbs2]
    · simp only [colUpd] at hb
      rw [if_neg hp] at hb
      simp only [Option.some.injEq] at hb
      subst hb
      simp [ih hbs2]

/-- A column rewrite leaves every other column's value unchanged. -/
theorem colUpd_omap_alookup_ne {c : String} {f : Val → Option Val} {r r' : Row}
    (h : omap (colUpd c f) r = some r') {c2 : String} (hne : c2 ≠ c) :
    alookup c2 r' = alookup c2 r := by
  induction r generalizing r' with
  | nil =>
    simp only [omap, Option.some.injEq] at h
    subst h
    rfl
  | cons p rest ih =>
    obtain ⟨b, bs2, hb, hbs2, rfl⟩ := omap_cons_eq_some h
    by_cases hp : p.1 = c
    · simp only [colUpd] at hb
      rw [if_pos hp] at hb
      simp only [Option.map_eq_some'] at hb
      obtain ⟨v, hv, rfl⟩ := hb
      have hp2 : p.1 ≠ c2 := by rw [hp]; exact Ne.symm hne
      obtain ⟨k, w⟩ := p
      simp only at hp hp2
      simp [alookup, Ne.symm hne, hp2, ih hbs2]
    · simp only [colUpd] at hb
      rw [if_neg hp] at hb
      simp only [Option.some.injEq] at hb
      subst hb
      by_cases hq : p.1 = c2
      · cases p
        subst hq
        simp [alookup]
      · cases p
        simp only [alookup]
        rw [if_neg hq, if_neg hq]
        exact ih hbs2

/-- A successful column rewrite maps the looked-up value of the target
column through the cell function. -/
theorem colUpd_omap_alookup_eq {c : String} {f : Val → Option Val} {r r' : Row}
    (h : omap (colUpd c f) r = some r') {v : Val} (hv : alookup c r = some v) :
    ∃ v2, f v = some v2 ∧ alookup c r' = some v2 := by
  induction r generalizing r' with
  | nil => simp [alookup] at hv
  | cons p rest ih =>
    obtain ⟨b, bs2, hb, hbs2, rfl⟩ := omap_cons_eq_some h
    by_cases hp : p.1 = c
    · obtain ⟨k, w⟩ := p
      simp only at hp
      subst hp
      simp only [alookup, if_true, Option.some.injEq] at hv
      subst hv
      simp only [colUpd, if_true, Option.map_eq_some'] at hb
      obtain ⟨v2, hv2, rfl⟩ := hb
      exact ⟨v2, hv2, by simp [alookup]⟩
    · obtain ⟨k, w⟩ := p
      simp only at hp
      simp only [alookup] at hv
      rw [if_neg hp] at hv
      simp only [colUpd] at hb
      rw [if_neg hp] at hb
      simp only [Option.some.injEq] at hb
      subst hb
      obtain ⟨v2, hv2, hl⟩ := ih hbs2 hv
      exact ⟨v2, hv2, by simp [alookup, if_neg hp, hl]⟩

/-- A target value that the cell function rejects fails the whole
column rewrite. -/
theorem updateColM_eq_none {c : String} {f : Val → Option Val} {r : Row}
    {v : Val} (hv : alookup c r = some v) (hf : f v = none) :
    updateColM c f r = none := by
  have hmem : (c, v) ∈ r := alookup_mem hv
  have : colUpd c f (c, v) = none := by simp [colUpd, hf]
  have hom : omap (colUpd c f) r = none := omap_eq_none hmem this
  unfold updateColM
  rw [hom]
  simp

/-- Destructor for a successful `updateColM`. -/
theorem updateColM_eq_some {c : String} {f : Val → Option Val} {r r' : Row}
    (h : updateColM c f r = some r') :
    (alookup c r).isSome ∧ omap (colUpd c f) r = some r' := by
  unfold updateColM at h
  by_cases hs : (alookup c r).isSome
  · rw [if_pos hs] at h
    exact ⟨hs, h⟩
  · rw [if_neg hs] at h
    exact absurd h (by simp)

/-- Destructor for a successful `transform_data`: every stage of the
pipeline succeeded, and the output is the date-parsed final frame. -/
theorem transform_data_eq_some {t : RawTable} {cfg : EtlYaml} {out : List Row}
    (h : transform_data t cfg = some out) :
    ∃ grazer rdate named projected filtered replaced,
      cellAt t 0 1 = some grazer ∧
      cellAt t 1 1 = some rdate ∧
      renameCols (sliceBody t) = some named ∧
      omap (projectRow cfg.db_schema)
        (named.map (fun r =>
          r ++ [("grazer", grazer), ("reporting_date", rdate)])) =
        some projected ∧
      dropNullsSubset ["area", "number_of_animal_units"] projected =
        some filtered ∧
      omap (updateColM "area"
        (fun v => some (replaceVal cfg.areas_to_replace v))) filtered =
        some replaced ∧
      omap (updateColM "reporting_date" toDateVal) replaced = some out := by
  cases hg : cellAt t 0 1 with
  | none => simp [transform_data, hg] at h
  | some grazer =>
    cases hr : cellAt t 1 1 with
    | none => simp [transform_data, hg, hr] at h
    | some rdate =>
      simp only [transform_data, hg, hr] at h
      cases hn : renameCols (sliceBody t) with
      | none => rw [hn] at h; simp at h
      | some named =>
        rw [hn] at h
        simp only at h
        cases hp : omap (projectRow cfg.db_schema)
            (named.map (fun r =>
              r ++ [("grazer", grazer), ("reporting_date", rdate)])) with
        | none => rw [hp] at h; simp at h
        | some projected =>
          rw [hp] at h
          simp only at h
          cases hd : dropNullsSubset ["area", "number_of_animal_units"]
              projected with
          | none => rw [hd] at h; simp at h
          | some filtered =>
            rw [hd] at h
            simp only at h
            cases ha : omap (updateColM "area"
                (fun v => some (replaceVal cfg.areas_to_replace v)))
                filtered with
            | none => rw [ha] at h; simp at h
            | some replaced =>
              rw [ha] at h
              simp only at h
              exact ⟨grazer, rdate, named, projected, filtered, replaced,
                rfl, rfl, rfl, hp, hd, ha, h⟩

/-! Claim theorems. -/

/-- C4: for every raw table with at least 4 rows, the body slice
`data[3:-1]` taken by `transform_data` keeps exactly the rows with
indices 3 through `len-2` — dropping the two metadata rows, the
separator row and the trailing total row — so it yields `len - 4`
candidate records before null-filtering. -/
theorem slice_drops_exactly_four (t : RawTable) (h : 4 ≤ t.length) :
    (sliceBody t).length = t.length - 4 ∧
      ∀ i, i < t.length - 4 → (sliceBody t)[i]? = t[i + 3]? := by
  have hlen : (sliceBody t).length = t.length - 4 := by
    simp only [sliceBody, List.length_dropLast, List.length_drop]
    omega
  refine ⟨hlen, fun i hi => ?_⟩
  have hdl : (t.drop 3).dropLast = (t.drop 3).take ((t.drop 3).length - 1) :=
    List.dropLast_eq_take _
  simp only [sliceBody, hdl, List.getElem?_take, List.length_drop]
  rw [if_pos (by omega), List.getElem?_drop]
  congr 1
  omega

/-- Witness for C4 at the representative 7-row table. -/
theorem slice_drops_exactly_four_witness :
    (sliceBody t0).length = t0.length - 4 :=
  (slice_drops_exactly_four t0 (by decide)).1

/-- C7 counterexample: with an alias mapping whose target is itself
aliased, applying the substitution twice differs from applying it
once, so the claimed idempotence fails for that configured mapping. -/
theorem replace_chain_not_idempotent :
    replaceStr [("A", "B"), ("B", "C")]
        (replaceStr [("A", "B"), ("B", "C")] "A") ≠
      replaceStr [("A", "B"), ("B", "C")] "A" := by
  decide

/-- C7 amended: the area alias substitution is idempotent for every
mapping whose targets are stable (no alias target is itself mapped to
a different name) — and unmapped values always pass through
unchanged. -/
theorem replace_idempotent_of_stable_targets (m : List (String × String))
    (x : String)
    (hm : ∀ p ∈ m, alookup p.2 m = none ∨ alookup p.2 m = some p.2) :
    replaceStr m (replaceStr m x) = replaceStr m x ∧
      (alookup x m = none → replaceStr m x = x) := by
  constructor
  · cases h : alookup x m with
    | none => simp [replaceStr, h]
    | some v =>
      have hv : (x, v) ∈ m := alookup_mem h
      have h2 := hm (x, v) hv
      simp only [replaceStr, h, Option.getD_some]
      rcases h2 with h2 | h2 <;> simp [replaceStr, h2]
  · intro h
    simp [replaceStr, h]

/-- Witness for C7 at the representative alias mapping of the run
configuration. -/
theorem replace_idempotent_of_stable_targets_witness :
    replaceStr [("Main Canal", "MC-1")]
        (replaceStr [("Main Canal", "MC-1")] "Main Canal") =
      replaceStr [("Main Canal", "MC-1")] "Main Canal" :=
  (replace_idempotent_of_stable_targets [("Main Canal", "MC-1")] "Main Canal"
    (by decide)).1

/-- C3 counterexample: with a primary-key configuration entry carrying
an injection payload, the statement composed by `build_load_query`
contains that configuration-derived string as a raw (unescaped,
unquoted) SQL fragment, because line 188 wraps `prim_key` in
`sql.SQL` rather than `sql.Identifier`. -/
theorem prim_key_spliced_raw :
    rawSpliceFree cfgBad [Val.str "v"] = false ∧
      Frag.raw "grazer); DROP TABLE grazing_reports; --" ∈
        build_load_query cfgBad [Val.str "v"] := by
  constructor
  · decide
  · decide

/-- C3 amended: every fragment of the statement built by
`build_load_query` is fixed template text, an identifier-quoted
schema/table/update-column/schema-column name, or a literal-escaped
row value — except that the configured `prim_key` string is spliced
in as raw SQL. -/
theorem build_load_query_provenance (cfg : EtlYaml) (vals : List Val) :
    ∀ f ∈ build_load_query cfg vals, fragProvenance cfg vals f := by
  intro f hf
  simp only [build_load_query] at hf
  rcases List.mem_append.mp hf with h | h
  · rcases List.mem_append.mp h with h | h
    · rcases List.mem_append.mp h with h | h
      · rcases List.mem_append.mp h with h | h
        · simp only [List.mem_cons, List.not_mem_nil, or_false] at h
          rcases h with rfl | rfl | rfl | rfl | rfl <;>
            simp [fragProvenance, templateRaws]
        · rcases mem_sepBy h with rfl | hm
          · simp [fragProvenance, templateRaws]
          · obtain ⟨s, hs, rfl⟩ := List.mem_map.mp hm
            simp [fragProvenance, hs]
      · simp only [List.mem_cons, List.not_mem_nil, or_false] at h
        subst h
        simp [fragProvenance, templateRaws]
    · rcases mem_sepBy h with rfl | hm
      · simp [fragProvenance, templateRaws]
      · obtain ⟨v, hv2, rfl⟩ := List.mem_map.mp hm
        simp [fragProvenance, hv2]
  · simp only [List.mem_cons, List.not_mem_nil, or_false] at h
    rcases h with rfl | rfl | rfl | rfl | rfl | rfl | rfl <;>
      simp [fragProvenance, templateRaws]

/-- Witness for the C3 amended theorem: the schema name appears as a
quoted identifier in a concretely built statement. -/
theorem build_load_query_provenance_witness :
    fragProvenance cfg0 [Val.str "v"] (Frag.ident "public") :=
  build_load_query_provenance cfg0 [Val.str "v"] (Frag.ident "public")
    (by decide)

/-- C8 counterexample: a probe that raises a database error other than
`OperationalError` (e.g. `UndefinedTable`, a `ProgrammingError`, when
the destination table is missing) escapes the probe's
`except pg.OperationalError` handler, propagates out of
`check_table_exists` — which is called before the loader's `try`
block — and aborts the load before the upsert loop runs. -/
theorem probe_programming_error_aborts_load :
    load_data_into_pg_warehouse true (Except.error ExcKind.programmingError)
      [] cfg0 = Except.error ExcKind.programmingError := rfl

/-- C8 amended: a probe failure of kind `OperationalError` is absorbed
(logged) and the loader proceeds to the row-wise upsert loop, but a
probe failure of any other kind (such as a `ProgrammingError` from a
missing table) aborts the load before the loop. -/
theorem probe_advisory_only_for_operational_error (data : List Row)
    (cfg : EtlYaml) :
    load_data_into_pg_warehouse true (Except.error ExcKind.operationalError)
        data cfg =
      Except.ok (data.map (fun r => build_load_query cfg (r.map Prod.snd))) ∧
    load_data_into_pg_warehouse true (Except.error ExcKind.programmingError)
        data cfg = Except.error ExcKind.programmingError :=
  ⟨rfl, rfl⟩

/-- C1: evaluation of the run at a batch where the first file's
extraction fails and the second file's succeeds with two loadable
records. The per-file failure is absorbed inside `extract_data`
(modelled by the `none` outcome), but the `None` appended to
`combined_data` makes `polars.concat` raise a `TypeError` on line
209, crashing the run before anything is loaded — the remaining
file's records are not processed, contradicting the claimed
failure isolation. -/
theorem per_file_failure_crashes_run :
    mainRun ["bad.pdf", "good.pdf"] extract0 true (Except.ok ()) cfg0
        "2026-10-12" = Except.error ExcKind.typeError ∧
    extract0 "data_dump/bad.pdf" = none ∧
    transform_data t0 cfg0 = some recs0 ∧ recs0.length = 2 := by
  refine ⟨by decide, by decide, by decide, by decide⟩

/-- C2 counterexample: in a run that completes a successful load of
one enumerated source file, the only rename performed moves the
intermediate parquet snapshot to the dated archive name; the source
file `data_dump/report1.pdf` is renamed by nothing. -/
theorem source_file_left_in_inbound :
    (mainRun ["report1.pdf"] (fun _ => some t0) true (Except.ok ()) cfg0
          "2026-10-12").toOption.map RunResult.renames =
      some [("transformed/grazing.parquet",
        "loaded_data/grazing_data_loaded_2026-10-12.parquet")] ∧
    "data_dump/report1.pdf" ≠ "transformed/grazing.parquet" :=
  ⟨by decide, by decide⟩

/-- C2 amended: after every run that completes a successful load, the
single rename performed moves the intermediate snapshot
(`transformed_parquet`) to the dated archive name built from the
run's calendar date; no originally-enumerated source file is renamed
out of the inbound directory. -/
theorem successful_run_renames_only_snapshot (files : List String)
    (extractf : String → Option RawTable) (connOk : Bool)
    (probe : Except ExcKind Unit) (cfg : EtlYaml) (dateStr : String)
    (res : RunResult) (hne : files ≠ [])
    (h : mainRun files extractf connOk probe cfg dateStr = Except.ok res) :
    res.renames = [(cfg.transformed_parquet,
      "loaded_data/grazing_data_loaded_" ++ dateStr ++ ".parquet")] ∧
    ∀ f ∈ files, "data_dump/" ++ f ≠ cfg.transformed_parquet →
      ∀ dst, ("data_dump/" ++ f, dst) ∉ res.renames := by
  cases files with
  | nil => exact absurd rfl hne
  | cons a l =>
    simp only [mainRun] at h
    rw [if_neg (show ¬((a :: l).isEmpty = true) by simp)] at h
    have hren : res.renames = [(cfg.transformed_parquet,
        "loaded_data/grazing_data_loaded_" ++ dateStr ++ ".parquet")] := by
      cases hc : concatFrames ((a :: l).map (fun f =>
          match extractf ("data_dump/" ++ f) with
          | none => none
          | some t => transform_data t cfg)) with
      | none => rw [hc] at h; simp at h
      | some proc =>
        rw [hc] at h
        simp only at h
        cases hl : load_data_into_pg_warehouse connOk probe proc cfg with
        | error e => rw [hl] at h; simp at h
        | ok qs =>
          rw [hl] at h
          simp only [Except.ok.injEq] at h
          rw [← h]
    refine ⟨hren, fun f hf hne2 dst hmem => ?_⟩
    rw [hren] at hmem
    simp only [List.mem_cons, List.not_mem_nil, or_false, Prod.mk.injEq] at hmem
    exact hne2 hmem.1

/-- Witness for the C2 amended theorem at the concrete successful
single-file run. -/
theorem successful_run_renames_only_snapshot_witness :
    res2.renames = [(cfg0.transformed_parquet,
      "loaded_data/grazing_data_loaded_" ++ "2026-10-12" ++ ".parquet")] :=
  (successful_run_renames_only_snapshot ["report1.pdf"] (fun _ => some t0)
    true (Except.ok ()) cfg0 "2026-10-12" res2 (by decide) (by decide)).1

/-- Lookup distributes over append when the key is found on the left. -/
theorem alookup_append_left {κ β : Type} [DecidableEq κ] {k : κ} {v : β}
    {l1 l2 : List (κ × β)} (h : alookup k l1 = some v) :
    alookup k (l1 ++ l2) = some v := by
  induction l1 with
  | nil => simp [alookup] at h
  | cons p rest ih =>
    obtain ⟨k2, v2⟩ := p
    by_cases hk : k2 = k
    · subst hk
      simp only [alookup, if_true] at h ⊢
      simpa using h
    · simp only [alookup] at h ⊢
      rw [if_neg hk] at h ⊢
      exact ih h

/-- Lookup falls through an append when the key is absent on the left. -/
theorem alookup_append_right {κ β : Type} [DecidableEq κ] {k : κ}
    {l1 l2 : List (κ × β)} (h : alookup k l1 = none) :
    alookup k (l1 ++ l2) = alookup k l2 := by
  induction l1 with
  | nil => rfl
  | cons p rest ih =>
    obtain ⟨k2, v2⟩ := p
    by_cases hk : k2 = k
    · subst hk
      simp [alookup] at h
    · simp only [alookup] at h ⊢
      rw [if_neg hk] at h ⊢
      exact ih h

/-- The rows produced by the column renaming all carry exactly the
three assigned column names. -/
theorem renameCols_fst {body : List (List Val)} {named : List Row}
    (h : renameCols body = some named) {r : Row} (hr : r ∈ named) :
    r.map Prod.fst = ["area", "number_of_animal_units", "comments"] := by
  obtain ⟨a, _, hfa⟩ := omap_mem h hr
  match a with
  | [] => simp at hfa
  | [_] => simp at hfa
  | [_, _] => simp at hfa
  | x :: y :: z :: w :: t => simp at hfa
  | [x, y, z] =>
    simp only [Option.some.injEq] at hfa
    subst hfa
    rfl

/-- Destructor for a successful null-subset filter. -/
theorem dropNullsSubset_eq_some {cols : List String} {rows out : List Row}
    (h : dropNullsSubset cols rows = some out) :
    (∀ r ∈ rows, hasCols cols r = true) ∧ out = rows.filter (keepRow cols) := by
  unfold dropNullsSubset at h
  by_cases ha : rows.all (hasCols cols) = true
  · rw [if_pos ha] at h
    simp only [Option.some.injEq] at h
    exact ⟨List.all_eq_true.mp ha, h.symm⟩
  · rw [if_neg ha] at h
    exact absurd h (by simp)

/-- A kept row has a non-null value at each subset column. -/
theorem keepRow_ne_null {cols : List String} {r : Row}
    (h : keepRow cols r = true) {c : String} (hc : c ∈ cols) :
    alookup c r ≠ some Val.null := by
  have := List.all_eq_true.mp h c hc
  simpa using this

/-- A row with the subset columns present looks each of them up. -/
theorem hasCols_isSome {cols : List String} {r : Row}
    (h : hasCols cols r = true) {c : String} (hc : c ∈ cols) :
    (alookup c r).isSome := by
  exact List.all_eq_true.mp h c hc

/-- The identifier names of a comma-joined identifier list are exactly
the joined names, in order. -/
theorem fragIdents_sepBy (names : List String) :
    fragIdents (sepBy (Frag.raw ", ") (names.map Frag.ident)) = names := by
  induction names with
  | nil => rfl
  | cons a rest ih =>
    cases rest with
    | nil => rfl
    | cons b t =>
      simp only [List.map_cons, sepBy] at ih ⊢
      simp only [fragIdents, List.filterMap_cons] at ih ⊢
      simpa using ih

/-- The literal values of a comma-joined literal list are exactly the
joined values, in order. -/
theorem fragLits_sepBy (vals : List Val) :
    fragLits (sepBy (Frag.raw " , ") (vals.map Frag.lit)) = vals := by
  induction vals with
  | nil => rfl
  | cons a rest ih =>
    cases rest with
    | nil => rfl
    | cons b t =>
      simp only [List.map_cons, sepBy] at ih ⊢
      simp only [fragLits, List.filterMap_cons] at ih ⊢
      simpa using ih

/-- Zipping a pair list's keys with its values rebuilds the list. -/
theorem zip_fst_snd {κ β : Type} (l : List (κ × β)) :
    (l.map Prod.fst).zip (l.map Prod.snd) = l := by
  induction l with
  | nil => rfl
  | cons p rest ih => simp [ih]

/-- Every record output by a successful `transform_data` carries the
configured `db_schema` column names, in order. -/
theorem transform_data_fst {t : RawTable} {cfg : EtlYaml} {out : List Row}
    (h : transform_data t cfg = some out) {r : Row} (hr : r ∈ out) :
    r.map Prod.fst = cfg.db_schema := by
  obtain ⟨g, rd, named, projected, filtered, replaced,
    hg, hrd, hn, hpj, hd, ha, hdt⟩ := transform_data_eq_some h
  obtain ⟨r2, hr2, hu2⟩ := omap_mem hdt hr
  obtain ⟨_, hom2⟩ := updateColM_eq_some hu2
  obtain ⟨r3, hr3, hu3⟩ := omap_mem ha hr2
  obtain ⟨_, hom3⟩ := updateColM_eq_some hu3
  obtain ⟨hcols, hfil⟩ := dropNullsSubset_eq_some hd
  have hr3p : r3 ∈ projected := by
    rw [hfil] at hr3
    exact (List.mem_filter.mp hr3).1
  obtain ⟨w, _, hw⟩ := omap_mem hpj hr3p
  have h3 : r3.map Prod.fst = cfg.db_schema := projectRow_fst hw
  rw [colUpd_omap_fst hom2, colUpd_omap_fst hom3, h3]

/-- C5 counterexample: `drop_nulls` drops only null values, so a row
whose area is the empty string survives the filter and is emitted
with an empty — though non-null — area. -/
theorem empty_area_survives_filter :
    transform_data t5 cfg0 = some [rec5] ∧
      alookup "area" rec5 = some (Val.str "") :=
  ⟨by decide, by decide⟩

/-- C5 amended: every record output by `transform_data` has non-null
(though possibly empty) area and number_of_animal_units values,
because `drop_nulls(subset=...)` removes exactly the rows where one
of those two columns is null. -/
theorem normalized_records_non_null {t : RawTable} {cfg : EtlYaml}
    {out : List Row} (h : transform_data t cfg = some out) {r : Row}
    (hr : r ∈ out) :
    (∃ v, alookup "area" r = some v ∧ v ≠ Val.null) ∧
      (∃ v, alookup "number_of_animal_units" r = some v ∧ v ≠ Val.null) := by
  obtain ⟨g, rd, named, projected, filtered, replaced,
    hg, hrd, hn, hpj, hd, ha, hdt⟩ := transform_data_eq_some h
  obtain ⟨r2, hr2, hu2⟩ := omap_mem hdt hr
  obtain ⟨_, hom2⟩ := updateColM_eq_some hu2
  obtain ⟨r3, hr3, hu3⟩ := omap_mem ha hr2
  obtain ⟨_, hom3⟩ := updateColM_eq_some hu3
  obtain ⟨hcolsAll, hfil⟩ := dropNullsSubset_eq_some hd
  rw [hfil] at hr3
  obtain ⟨hr3p, hkeep⟩ := List.mem_filter.mp hr3
  have hhas := hcolsAll r3 hr3p
  obtain ⟨va, hva⟩ := Option.isSome_iff_exists.mp
    (hasCols_isSome hhas (c := "area") (by simp))
  have hvaNN : va ≠ Val.null := by
    intro hnull
    exact keepRow_ne_null hkeep (c := "area") (by simp) (by rw [hva, hnull])
  obtain ⟨v2, hv2eq, hr2A⟩ := colUpd_omap_alookup_eq hom3 hva
  simp only [Option.some.injEq] at hv2eq
  have hrA : alookup "area" r = some v2 := by
    rw [colUpd_omap_alookup_ne hom2 (by decide)]
    exact hr2A
  constructor
  · refine ⟨v2, hrA, ?_⟩
    rw [← hv2eq]
    cases va with
    | null => exact absurd rfl hvaNN
    | str s => simp [replaceVal]
    | vdate y mo d => simp [replaceVal]
  · obtain ⟨vn, hvn⟩ := Option.isSome_iff_exists.mp
      (hasCols_isSome hhas (c := "number_of_animal_units") (by simp))
    have hvnNN : vn ≠ Val.null := by
      intro hnull
      exact keepRow_ne_null hkeep (c := "number_of_animal_units") (by simp)
        (by rw [hvn, hnull])
    have h1 : alookup "number_of_animal_units" r2 = some vn := by
      rw [colUpd_omap_alookup_ne hom3 (by decide)]
      exact hvn
    have h2 : alookup "number_of_animal_units" r = some vn := by
      rw [colUpd_omap_alookup_ne hom2 (by decide)]
      exact h1
    exact ⟨vn, h2, hvnNN⟩

/-- Witness for the C5 amended theorem at the concretely transformed
table `t5`. -/
theorem normalized_records_non_null_witness :
    (∃ v, alookup "area" rec5 = some v ∧ v ≠ Val.null) ∧
      (∃ v, alookup "number_of_animal_units" rec5 = some v ∧
        v ≠ Val.null) :=
  @normalized_records_non_null t5 cfg0 [rec5] (by decide) rec5 (by decide)

/-- C9 counterexample: for a table whose reporting-date text does not
parse but whose body yields no surviving data rows, `transform_data`
does not fail — polars' strict cast has no values to parse — and the
file-level result is an empty record set rather than a failure. -/
theorem unparseable_date_vacuous_success :
    cellAt t4 1 1 = some (Val.str "not a date") ∧
      parseDateMBDY "not a date" = none ∧
      transform_data t4 cfg0 = some [] :=
  ⟨by decide, by decide, by decide⟩

/-- C9 amended: the reporting-date text "June 12, 2023" parses to the
calendar date 2023-06-12, and a table whose reporting-date text does
not parse makes `transform_data` fail for the whole file whenever at
least one data row survives null-filtering — with no surviving rows
it instead succeeds with zero records; in neither case is a record
with a null date produced from unparseable text. -/
theorem reporting_date_contract (t : RawTable) (cfg : EtlYaml) (s : String)
    (hc : cellAt t 1 1 = some (Val.str s)) (hp : parseDateMBDY s = none) :
    parseDateMBDY "June 12, 2023" = some (2023, 6, 12) ∧
      (transform_data t cfg = none ∨ transform_data t cfg = some []) := by
  refine ⟨by decide, ?_⟩
  cases hout : transform_data t cfg with
  | none => exact Or.inl rfl
  | some out =>
    refine Or.inr ?_
    suffices hemp : out = [] by rw [hemp]
    cases out with
    | nil => rfl
    | cons r rest =>
      exfalso
      obtain ⟨g, rd, named, projected, filtered, replaced,
        hg, hrd, hn, hpj, hd, ha, hdt⟩ := transform_data_eq_some hout
      rw [hc] at hrd
      injection hrd with hrd
      subst hrd
      cases hrep : replaced with
      | nil =>
        rw [hrep] at hdt
        simp [omap] at hdt
      | cons r2 rest2 =>
        rw [hrep] at hdt
        obtain ⟨b, bs, hb, _, _⟩ := omap_cons_eq_some hdt
        have hr2mem : r2 ∈ replaced := by
          rw [hrep]
          exact List.mem_cons_self _ _
        obtain ⟨r3, hr3, hu3⟩ := omap_mem ha hr2mem
        obtain ⟨_, hom3⟩ := updateColM_eq_some hu3
        obtain ⟨hcolsAll, hfil⟩ := dropNullsSubset_eq_some hd
        rw [hfil] at hr3
        have hr3p : r3 ∈ projected := (List.mem_filter.mp hr3).1
        obtain ⟨w, hwmem, hw⟩ := omap_mem hpj hr3p
        by_cases hrdmem : "reporting_date" ∈ cfg.db_schema
        · have h1 : alookup "reporting_date" r3 = alookup "reporting_date" w :=
            projectRow_alookup hw hrdmem
          obtain ⟨r4, hr4, hweq⟩ := List.mem_map.mp hwmem
          have h4fst := renameCols_fst hn hr4
          have h4none : alookup "reporting_date" r4 = none :=
            alookup_eq_none (by rw [h4fst]; decide)
          have h2 : alookup "reporting_date" w = some (Val.str s) := by
            rw [← hweq, alookup_append_right h4none]
            simp [alookup]
          have h3 : alookup "reporting_date" r2 = some (Val.str s) := by
            rw [colUpd_omap_alookup_ne hom3 (by decide), h1, h2]
          have hfail : updateColM "reporting_date" toDateVal r2 = none :=
            updateColM_eq_none h3 (by simp [toDateVal, hp])
          rw [hfail] at hb
          exact absurd hb (by simp)
        · have h3fst := projectRow_fst hw
          have h3none : alookup "reporting_date" r3 = none :=
            alookup_eq_none (by rw [h3fst]; exact hrdmem)
          have h2none : alookup "reporting_date" r2 = none := by
            rw [colUpd_omap_alookup_ne hom3 (by decide)]
            exact h3none
          obtain ⟨hsome, _⟩ := updateColM_eq_some hb
          rw [h2none] at hsome
          simp at hsome

/-- Witness for the C9 amended theorem at the concrete table `t4`. -/
theorem reporting_date_contract_witness :
    parseDateMBDY "June 12, 2023" = some (2023, 6, 12) :=
  (reporting_date_contract t4 cfg0 "not a date" (by decide) (by decide)).1

/-- C10: for every record of a dataset produced by `transform_data`,
the record's column names are exactly the configured `db_schema`
order, the identifier list `build_load_query` emits is that same
order, the literal list is the record's values in row order — so
zipping the emitted identifiers with the emitted literals positionally
rebuilds the record itself. -/
theorem insert_values_align_with_columns {t : RawTable} {cfg : EtlYaml}
    {out : List Row} (h : transform_data t cfg = some out) {r : Row}
    (hr : r ∈ out) :
    r.map Prod.fst = cfg.db_schema ∧
      fragIdents (colListFrags cfg) = cfg.db_schema ∧
      fragLits (valuesFrags (r.map Prod.snd)) = r.map Prod.snd ∧
      (fragIdents (colListFrags cfg)).zip
          (fragLits (valuesFrags (r.map Prod.snd))) = r := by
  have h1 := transform_data_fst h hr
  refine ⟨h1, ?_, ?_, ?_⟩
  · simp only [colListFrags]
    exact fragIdents_sepBy _
  · simp only [valuesFrags]
    exact fragLits_sepBy _
  · simp only [colListFrags, valuesFrags]
    rw [fragIdents_sepBy, fragLits_sepBy, ← h1]
    exact zip_fst_snd r

/-- Witness for C10 at the first record of the concretely transformed
table `t0`. -/
theorem insert_values_align_with_columns_witness :
    fragIdents (colListFrags cfg0) = cfg0.db_schema :=
  (@insert_values_align_with_columns t0 cfg0 recs0 (by decide)
    recs0.headI (by decide)).2.1

/-- The map-based branch of `setCol` puts the new value at the column. -/
theorem setColMap_alookup_eq {c : String} {v : Val} {r : Row}
    (h : (alookup c r).isSome) :
    alookup c (r.map (fun p => if p.1 = c then (c, v) else p)) = some v := by
  induction r with
  | nil => simp [alookup] at h
  | cons p rest ih =>
    obtain ⟨k, w⟩ := p
    by_cases hp : k = c
    · subst hp
      simp only [List.map_cons, if_true]
      simp [alookup]
    · simp only [alookup] at h
      rw [if_neg hp] at h
      simp only [List.map_cons]
      rw [show ((if k = c then (c, v) else (k, w))) = (k, w) from if_neg hp]
      simp only [alookup]
      rw [if_neg hp]
      exact ih h

/-- The map-based branch of `setCol` leaves other columns unchanged. -/
theorem setColMap_alookup_ne {c2 c : String} (hne : c2 ≠ c) (r : Row)
    (v : Val) :
    alookup c2 (r.map (fun p => if p.1 = c then (c, v) else p)) =
      alookup c2 r := by
  induction r with
  | nil => rfl
  | cons p rest ih =>
    obtain ⟨k, w⟩ := p
    by_cases hp : k = c
    · subst hp
      simp only [List.map_cons, if_true]
      simp only [alookup]
      rw [if_neg (Ne.symm hne), if_neg (Ne.symm hne)]
      exact ih
    · simp only [List.map_cons]
      rw [show ((if k = c then (c, v) else (k, w))) = (k, w) from if_neg hp]
      simp only [alookup]
      by_cases hk : k = c2
      · rw [if_pos hk, if_pos hk]
      · rw [if_neg hk, if_neg hk]
        exact ih

/-- Setting a column makes its value the set value. -/
theorem setCol_alookup_eq (r : Row) (c : String) (v : Val) :
    alookup c (setCol r c v) = some v := by
  unfold setCol
  by_cases h : (alookup c r).isSome
  · rw [if_pos h]
    exact setColMap_alookup_eq h
  · rw [if_neg h]
    rw [alookup_append_right (Option.not_isSome_iff_eq_none.mp h)]
    simp [alookup]

/-- Setting a column leaves every other column's value unchanged. -/
theorem setCol_alookup_ne {c2 c : String} (hne : c2 ≠ c) (r : Row)
    (v : Val) : alookup c2 (setCol r c v) = alookup c2 r := by
  unfold setCol
  by_cases h : (alookup c r).isSome
  · rw [if_pos h]
    exact setColMap_alookup_ne hne r v
  · rw [if_neg h]
    cases hx : alookup c2 r with
    | some w => rw [alookup_append_left hx]
    | none =>
      rw [alookup_append_right hx]
      simp [alookup, Ne.symm hne]

/-- C6: the statement built by `build_load_query` has narrow-upsert
semantics — when no stored row conflicts on the configured primary
key, executing it appends exactly the incoming row; when a stored row
conflicts, executing it rewrites that row only at the configured
update column (to the incoming, excluded value) and at `edited_on`
(to the current timestamp), leaving the value of every other column
of that row unchanged. -/
theorem upsert_narrow_frame (cfg : EtlYaml) (vals : List Val) (now : Val)
    (db : List Row) (hne : cfg.update_col ≠ "edited_on") :
    ((∀ r ∈ db, upsertHit cfg (newRow cfg vals) r = false) →
      runUpsert cfg vals now db = db ++ [newRow cfg vals]) ∧
    (∀ (i : Nat) (r : Row), db[i]? = some r →
      upsertHit cfg (newRow cfg vals) r = true →
      ∃ r2, (runUpsert cfg vals now db)[i]? = some r2 ∧
        (∀ c2, c2 ≠ cfg.update_col → c2 ≠ "edited_on" →
          alookup c2 r2 = alookup c2 r) ∧
        alookup cfg.update_col r2 =
          some ((alookup cfg.update_col (newRow cfg vals)).getD Val.null) ∧
        alookup "edited_on" r2 = some now) := by
  constructor
  · intro hmiss
    have hany : db.any (upsertHit cfg (newRow cfg vals)) = false := by
      rw [List.any_eq_false]
      intro r hrm
      rw [hmiss r hrm]
      simp
    simp only [runUpsert]
    rw [hany]
    simp
  · intro i r hir hhit
    have hany : db.any (upsertHit cfg (newRow cfg vals)) = true :=
      List.any_eq_true.mpr ⟨r, List.getElem?_mem hir, hhit⟩
    have hrw : runUpsert cfg vals now db = db.map (fun x =>
        if upsertHit cfg (newRow cfg vals) x then
          applyUpdate cfg (newRow cfg vals) now x
        else x) := by
      simp only [runUpsert]
      rw [hany]
      simp
    refine ⟨applyUpdate cfg (newRow cfg vals) now r, ?_, ?_, ?_, ?_⟩
    · rw [hrw, List.getElem?_map, hir]
      simp [hhit]
    · intro c2 h2u h2e
      simp only [applyUpdate]
      rw [setCol_alookup_ne h2e, setCol_alookup_ne h2u]
    · simp only [applyUpdate]
      rw [setCol_alookup_ne hne, setCol_alookup_eq]
    · simp only [applyUpdate]
      rw [setCol_alookup_eq]

/-- Witness for C6: at a configuration with no conflicting stored row,
the upsert appends exactly the incoming row. -/
theorem upsert_narrow_frame_witness :
    runUpsert cfg0 [Val.str "John Doe"] (Val.str "ts")
        [[("grazer", Val.str "Other")]] =
      [[("grazer", Val.str "Other")]] ++ [newRow cfg0 [Val.str "John Doe"]] :=
  (upsert_narrow_frame cfg0 [Val.str "John Doe"] (Val.str "ts")
    [[("grazer", Val.str "Other")]] (by decide)).1 (by decide)

end GrazingEtl
